import Mathlib

/-!
Verification of the talk-to-me narration/session core.

This file shallowly embeds the narration extraction pipeline
(`src/extractor.py`), the session and registry model
(`src/mcp_server/session.py`) and the voice controller
(`src/mcp_server/voice_controller.py`) and proves the specified
properties about them.

Text is modelled as `List Char`.  Each `re.sub` of the cleaning pass is
implemented as a left-to-right scanner with the exact matching semantics
of the Python pattern (leftmost match, greedy/lazy quantifiers as
written, continuation after the consumed match).  Word characters
(Python `\w`) are modelled as ASCII alphanumerics plus underscore and
case folding as ASCII lowering; the repository only feeds ASCII markup
around the narration markers, and no claim depends on non-ASCII word
characters.
-/

namespace TalkToMe

/-- Python whitespace (`str.isspace` / regex `\s` for `str` patterns):
the six ASCII whitespace characters plus the Unicode whitespace code
points. -/
def isPySpace (c : Char) : Bool :=
  c.toNat = 0x20 || (0x09 ≤ c.toNat && c.toNat ≤ 0x0d) ||
  (0x1c ≤ c.toNat && c.toNat ≤ 0x1f) || c.toNat = 0x85 || c.toNat = 0xa0 ||
  c.toNat = 0x1680 || (0x2000 ≤ c.toNat && c.toNat ≤ 0x200a) ||
  c.toNat = 0x2028 || c.toNat = 0x2029 || c.toNat = 0x202f ||
  c.toNat = 0x205f || c.toNat = 0x3000

/-- Python word character (regex `\w`), modelled for ASCII: letters
(0x41-0x5A, 0x61-0x7A), digits (0x30-0x39) and underscore (0x5F). -/
def isPyWord (c : Char) : Bool :=
  (0x41 ≤ c.toNat && c.toNat ≤ 0x5A) || (0x61 ≤ c.toNat && c.toNat ≤ 0x7A) ||
  (0x30 ≤ c.toNat && c.toNat ≤ 0x39) || c.toNat = 0x5F

/-- The character class `[^\w\s,.!?-]` of the stray-symbol cleanup step
(line 133 of `extractor.py`). -/
def isSymCls (c : Char) : Bool :=
  !(isPyWord c) && !(isPySpace c) && c ≠ ',' && c ≠ '.' && c ≠ '!' &&
  c ≠ '?' && c ≠ '-'

/-- `str.strip()` from the left: drop leading whitespace. -/
def lstrip (l : List Char) : List Char := l.dropWhile isPySpace

/-- `str.strip()`: drop leading and trailing whitespace
(lines 67 and 135 of `extractor.py`). -/
def pyStrip (l : List Char) : List Char :=
  ((lstrip l).reverse.dropWhile isPySpace).reverse

/-- Scanner for `re.sub(r'\n+', ' ', s)` (line 70): each maximal run of
newlines becomes a single space.  `inRun` records whether the previous
character belonged to a newline run. -/
def subNlGo (inRun : Bool) : List Char → List Char
  | [] => []
  | c :: rest =>
    if c = '\n' then
      if inRun then subNlGo true rest else ' ' :: subNlGo true rest
    else c :: subNlGo false rest

/-- `re.sub(r'\n+', ' ', s)` (line 70 of `extractor.py`). -/
def subNewlines (l : List Char) : List Char := subNlGo false l

/-- The backtick character U+0060, the fence delimiter of markdown
code blocks and the inline code marker. -/
def btick : Char := Char.ofNat 0x60

/-- Scanner for `re.sub(r'```[\s\S]*?```', '', s)` (line 73).
`st = none`: scanning for an opening triple-backtick fence.
`st = some buf`: inside a potential block, with the scanned content
buffered in reverse; the lazy `[\s\S]*?` ends the block at the earliest
closing fence.  `k` counts the consecutive backticks read so far
towards the next fence.  If the input ends with a fence unclosed there
is no match and (since every position was checked for a closing fence)
the buffered text is emitted unchanged. -/
def rcbGo (st : Option (List Char)) (k : ℕ) : List Char → List Char
  | [] =>
    match st with
    | none => List.replicate k btick
    | some buf =>
      btick :: btick :: btick :: (buf.reverse ++ List.replicate k btick)
  | c :: rest =>
    if c = btick then
      if k = 2 then
        match st with
        | none => rcbGo (some []) 0 rest
        | some _ => rcbGo none 0 rest
      else rcbGo st (k + 1) rest
    else
      match st with
      | none => List.replicate k btick ++ c :: rcbGo none 0 rest
      | some buf => rcbGo (some (c :: (List.replicate k btick ++ buf))) 0 rest

/-- `re.sub(r'```[\s\S]*?```', '', s)` (line 73 of `extractor.py`). -/
def removeCodeBlocks (l : List Char) : List Char := rcbGo none 0 l

/-- `s.replace('`', '')` (line 76 of `extractor.py`). -/
def removeBackticks (l : List Char) : List Char := l.filter (· ≠ btick)

/-- State of the `#+\s*` scanner: in plain text, inside a `#` run, or
inside the whitespace following a `#` run. -/
inductive HState where
  | txt : HState
  | hash : HState
  | sp : HState
deriving DecidableEq

/-- Scanner for `re.sub(r'#+\s*', '', s)` (line 79): every run of `#`
characters together with the whitespace run that follows it is deleted,
wherever it occurs (the pattern is not anchored to line starts). -/
def shGo (st : HState) : List Char → List Char
  | [] => []
  | c :: rest =>
    match st with
    | .txt => if c = '#' then shGo .hash rest else c :: shGo .txt rest
    | .hash =>
      if c = '#' then shGo .hash rest
      else if isPySpace c then shGo .sp rest
      else c :: shGo .txt rest
    | .sp =>
      if isPySpace c then shGo .sp rest
      else if c = '#' then shGo .hash rest
      else c :: shGo .txt rest

/-- `re.sub(r'#+\s*', '', s)` (line 79 of `extractor.py`). -/
def subHeading (l : List Char) : List Char := shGo .txt l

/-- Scanner for `re.sub(r'\*\*?(.*?)\*\*?', r'\1', s)` (line 82).
`st = none`: scanning.  `st = some (dbl, buf)`: an opening `**` (when
`dbl`) or `*` was consumed and `buf` holds the lazily scanned capture in
reverse.  The capture cannot cross a newline (`.` without `DOTALL`).
The closing `\*\*?` greedily takes a second star.  When no closing star
exists before a newline or the end: a double-star opening still matches
as `\*\*?(.*?)\*\*?` consuming exactly `**` with an empty capture, while
a single star fails to match and is emitted; either way the buffered
text is star-free, so it contains no further match and is emitted. -/
def sbGo (st : Option (Bool × List Char)) : List Char → List Char
  | [] =>
    match st with
    | none => []
    | some (dbl, buf) => (if dbl then [] else ['*']) ++ buf.reverse
  | '*' :: '*' :: rest =>
    match st with
    | none => sbGo (some (true, [])) rest
    | some (_, buf) => buf.reverse ++ sbGo none rest
  | '*' :: rest =>
    match st with
    | none => sbGo (some (false, [])) rest
    | some (_, buf) => buf.reverse ++ sbGo none rest
  | '\n' :: rest =>
    match st with
    | none => '\n' :: sbGo none rest
    | some (dbl, buf) =>
      (if dbl then [] else ['*']) ++ buf.reverse ++ '\n' :: sbGo none rest
  | c :: rest =>
    match st with
    | none => c :: sbGo none rest
    | some (dbl, buf) => sbGo (some (dbl, c :: buf)) rest

/-- `re.sub(r'\*\*?(.*?)\*\*?', r'\1', s)` (line 82 of `extractor.py`). -/
def subBold (l : List Char) : List Char := sbGo none l

/-- State of the markdown-link scanner: plain text, inside `[...` with
the buffered label, or inside `](...` with the buffered label and url. -/
inductive LState where
  | txt : LState
  | brack : List Char → LState
  | paren : List Char → List Char → LState

/-- Scanner for `re.sub(r'\[(.*?)\]\(.*?\)', r'\1', s)` (line 85).
The lazy label ends at the first `]` that is followed by `(` and a
closing `)` before a newline; a failed candidate re-enters the label.
If the pattern cannot complete before a newline or the end of input,
the buffered region contains no viable match start (every `]` in it
lacks `(` or a subsequent `)`), so it is emitted unchanged. -/
def slGo (st : LState) : List Char → List Char
  | [] =>
    match st with
    | .txt => []
    | .brack b1 => '[' :: b1.reverse
    | .paren b1 b2 => '[' :: b1.reverse ++ ']' :: '(' :: b2.reverse
  | ']' :: '(' :: rest =>
    match st with
    | .txt => ']' :: '(' :: slGo .txt rest
    | .brack b1 => slGo (.paren b1 []) rest
    | .paren b1 b2 => slGo (.paren b1 ('(' :: ']' :: b2)) rest
  | c :: rest =>
    match st with
    | .txt => if c = '[' then slGo (.brack []) rest else c :: slGo .txt rest
    | .brack b1 =>
      if c = '\n' then '[' :: b1.reverse ++ '\n' :: slGo .txt rest
      else slGo (.brack (c :: b1)) rest
    | .paren b1 b2 =>
      if c = ')' then b1.reverse ++ slGo .txt rest
      else if c = '\n' then
        '[' :: b1.reverse ++ ']' :: '(' :: b2.reverse ++ '\n' :: slGo .txt rest
      else slGo (.paren b1 (c :: b2)) rest

/-- `re.sub(r'\[(.*?)\]\(.*?\)', r'\1', s)` (line 85 of `extractor.py`). -/
def subLinks (l : List Char) : List Char := slGo .txt l

/-- `s.replace(single-character-symbol, '')` (lines 88-98): deleting one
character is filtering it out. -/
def removeChar (c : Char) (l : List Char) : List Char := l.filter (· ≠ c)

/-- `s.replace('⚠️', '')` (line 92): the warning emoji is the two code
points U+26A0 U+FE0F, so this is a two-character substring deletion,
scanning left to right over non-overlapping occurrences. -/
def removeWarnPair : List Char → List Char
  | [] => []
  | [c] => [c]
  | c1 :: c2 :: rest =>
    if c1 = Char.ofNat 0x26A0 ∧ c2 = Char.ofNat 0xFE0F then removeWarnPair rest
    else c1 :: removeWarnPair (c2 :: rest)

/-- `s.replace('—', '-').replace('–', '-')` (lines 99-100): em and en
dashes are normalized to a plain hyphen. -/
def normalizeDashes (l : List Char) : List Char :=
  l.map fun c => if c = '—' then '-' else if c = '–' then '-' else c

/-- The symbol replacement chain of lines 88-100 of `extractor.py`, in
source order: ✅ U+2705, ✓ U+2713, ❌ U+274C, ✗ U+2717, ⚠️ U+26A0+FE0F,
🎉 U+1F389, 🎤 U+1F3A4, 🔊 U+1F50A, 📢 U+1F4E2, → U+2192, • U+2022,
then dash normalization. -/
def symReplaces (l : List Char) : List Char :=
  normalizeDashes (removeChar '•' (removeChar '→'
    (removeChar (Char.ofNat 0x1F4E2) (removeChar (Char.ofNat 0x1F50A)
      (removeChar (Char.ofNat 0x1F3A4) (removeChar (Char.ofNat 0x1F389)
        (removeWarnPair (removeChar '✗' (removeChar '❌' (removeChar '✓'
          (removeChar '✅' l)))))))))))

/-- The character class of the emoji pattern (lines 104-123 of
`extractor.py`), as the disjunction of the listed ranges (the range
U+2702-U+27B0 is listed twice in the source). -/
def isEmoji (c : Char) : Bool :=
  let n := c.toNat
  (0x1F600 ≤ n && n ≤ 0x1F64F) || (0x1F300 ≤ n && n ≤ 0x1F5FF) ||
  (0x1F680 ≤ n && n ≤ 0x1F6FF) || (0x1F1E0 ≤ n && n ≤ 0x1F1FF) ||
  (0x2500 ≤ n && n ≤ 0x2BEF) || (0x2702 ≤ n && n ≤ 0x27B0) ||
  (0x24C2 ≤ n && n ≤ 0x1F251) || (0x1F926 ≤ n && n ≤ 0x1F937) ||
  (0x10000 ≤ n && n ≤ 0x10FFFF) || (0x2640 ≤ n && n ≤ 0x2642) ||
  (0x2600 ≤ n && n ≤ 0x2B55) || n = 0x200D || n = 0x23CF ||
  n = 0x23E9 || n = 0x231A || n = 0xFE0F || n = 0x3030

/-- `emoji_pattern.sub('', s)` (line 124): substituting every run of
class characters with the empty string deletes exactly the characters
in the class. -/
def emojiFilter (l : List Char) : List Char := l.filter fun c => !(isEmoji c)

/-- Scanner for `re.sub(r'\s+', ' ', s)` (line 127): each maximal
whitespace run becomes a single space. -/
def subWsGo (inRun : Bool) : List Char → List Char
  | [] => []
  | c :: rest =>
    if isPySpace c then
      if inRun then subWsGo true rest else ' ' :: subWsGo true rest
    else c :: subWsGo false rest

/-- `re.sub(r'\s+', ' ', s)` (line 127 of `extractor.py`). -/
def subWs (l : List Char) : List Char := subWsGo false l

/-- Match of `https?://\S+` at the head of `l` (line 130): literal
`http`, optional `s`, literal `://`, then a greedy nonempty run of
non-whitespace.  Returns the rest of the input after the match. -/
def urlMatch (l : List Char) : Option (List Char) :=
  if List.take 8 l = "https://".data then
    match List.drop 8 l with
    | [] => none
    | c :: r => if isPySpace c then none
                else some ((c :: r).dropWhile fun x => !(isPySpace x))
  else if List.take 7 l = "http://".data then
    match List.drop 7 l with
    | [] => none
    | c :: r => if isPySpace c then none
                else some ((c :: r).dropWhile fun x => !(isPySpace x))
  else none

/-- Fueled scanner for `re.sub(r'https?://\S+', '', s)` (line 130):
the fuel is the input length, which bounds the number of scanning
steps (each step consumes at least one character). -/
def ruGo : Nat → List Char → List Char
  | 0, l => l
  | _ + 1, [] => []
  | fuel + 1, c :: rest =>
    match urlMatch (c :: rest) with
    | some after => ruGo fuel after
    | none => c :: ruGo fuel rest

/-- `re.sub(r'https?://\S+', '', s)` (line 130 of `extractor.py`). -/
def removeURLs (l : List Char) : List Char := ruGo l.length l

/-- Match of `\s+[^\w\s,.!?-]+\s+` at the head of `l` (line 133): a
nonempty whitespace run, a nonempty run of stray symbols, a nonempty
whitespace run, all greedy (no backtracking can succeed where the
greedy runs fail, since the class excludes whitespace and whitespace is
excluded from the class).  Returns the rest after the match. -/
def isoMatch (l : List Char) : Option (List Char) :=
  let sp1 := l.takeWhile isPySpace
  let r1 := l.dropWhile isPySpace
  let sym := r1.takeWhile isSymCls
  let r2 := r1.dropWhile isSymCls
  let sp2 := r2.takeWhile isPySpace
  let r3 := r2.dropWhile isPySpace
  if sp1 ≠ [] ∧ sym ≠ [] ∧ sp2 ≠ [] then some r3 else none

/-- Fueled scanner for `re.sub(r'\s+[^\w\s,.!?-]+\s+', ' ', s)`
(line 133): each match is replaced by a single space and scanning
resumes after the consumed trailing whitespace. -/
def siGo : Nat → List Char → List Char
  | 0, l => l
  | _ + 1, [] => []
  | fuel + 1, c :: rest =>
    match isoMatch (c :: rest) with
    | some after => ' ' :: siGo fuel after
    | none => c :: siGo fuel rest

/-- `re.sub(r'\s+[^\w\s,.!?-]+\s+', ' ', s)` (line 133 of
`extractor.py`). -/
def subIsolated (l : List Char) : List Char := siGo l.length l

/-- `clean_narration` (lines 49-135 of `extractor.py`): the twelve-step
cleaning pipeline, in source order. -/
def cleanNarration (l : List Char) : List Char :=
  pyStrip (subIsolated (removeURLs (subWs (emojiFilter (symReplaces
    (subLinks (subBold (subHeading (removeBackticks (removeCodeBlocks
      (subNewlines (pyStrip l))))))))))))

/-! ## Narration extraction (`extract_narration`, lines 11-46) -/

/-- The opening marker `[VOICE_NARRATION]`, lowercased (the pattern is
compiled with `re.IGNORECASE`). -/
def openTag : List Char := "[voice_narration]".data

/-- The closing marker `[/VOICE_NARRATION]`, lowercased. -/
def closeTag : List Char := "[/voice_narration]".data

/-- Find the earliest occurrence of the (lowercase, ASCII) literal
`tag` in `l`, matching case-insensitively; return the text before the
occurrence and the text after it.  This is the scan `re` performs for a
literal pattern under `IGNORECASE`. -/
def findTagSplit (tag : List Char) : List Char → Option (List Char × List Char)
  | [] => none
  | c :: rest =>
    if (List.take tag.length (c :: rest)).map Char.toLower = tag then
      some ([], List.drop tag.length (c :: rest))
    else (findTagSplit tag rest).map fun p => (c :: p.1, p.2)

/-- Fueled loop of `re.findall(r'\[VOICE_NARRATION\](.*?)\[/VOICE_NARRATION\]',
text, re.DOTALL | re.IGNORECASE)` (line 27): repeatedly take the
earliest opening marker and the earliest closing marker after it
(`.*?` is lazy; `DOTALL` lets the capture span newlines), collect the
capture, and continue after the closing marker.  An opening marker with
no closing marker matches nothing (and no later match can exist, since
any later closing marker would also close the earlier opening).  The
fuel is the input length, which bounds the number of matches. -/
def faGo : Nat → List Char → List (List Char)
  | 0, _ => []
  | fuel + 1, l =>
    match findTagSplit openTag l with
    | none => []
    | some (_, afterOpen) =>
      match findTagSplit closeTag afterOpen with
      | none => []
      | some (content, afterClose) => content :: faGo fuel afterClose

/-- All narration block captures of `text`, in source order. -/
def findAllBlocks (l : List Char) : List (List Char) := faGo l.length l

/-- The capture of the first narration block, as computed by
`re.search` with the same pattern (line 40): the same scan as
`findall`, stopped at the first match. -/
def findFirstBlock (l : List Char) : Option (List Char) :=
  match findTagSplit openTag l with
  | none => none
  | some (_, afterOpen) =>
    match findTagSplit closeTag afterOpen with
    | none => none
    | some (content, _) => some content

/-- `extract_narration(text, multi_point)` (lines 11-46 of
`extractor.py`): in multi-point mode, clean every block and join with
`". "`; otherwise clean the first block.  Returns `none` when there is
no match. -/
def extractNarration (l : List Char) (multiPoint : Bool) : Option (List Char) :=
  if multiPoint then
    match findAllBlocks l with
    | [] => none
    | blocks => some (List.intercalate ". ".data (blocks.map cleanNarration))
  else (findFirstBlock l).map cleanNarration

/-! ## Sessions (`session.py`) -/

/-- A voice-settings value: the settings dictionary holds strings,
numbers and booleans. -/
inductive Val where
  | str : String → Val
  | num : ℚ → Val
  | bool : Bool → Val
deriving DecidableEq

/-- Python truthiness of a settings value, as used by
`if narration and self.session.voice_settings.get(...)`. -/
def truthy : Val → Bool
  | .str s => s ≠ ""
  | .num q => q ≠ 0
  | .bool b => b

/-- A message of a conversation history (`ConversationMessage`,
lines 12-27 of `session.py`).  Timestamps are modelled as rationals
(seconds). -/
structure Message where
  role : String
  content : List Char
  narration : Option (List Char)
  timestamp : ℚ
deriving DecidableEq

/-- The seven recognized voice-settings keys with their default values
(`Session.__post_init__`, lines 39-50 of `session.py`). -/
def defaultVoiceSettings : List (String × Val) :=
  [("tts_provider", .str "local"), ("stt_provider", .str "openai"),
   ("tts_voice", .str "default"), ("tts_speed", .num 1),
   ("auto_speak", .bool true), ("narration_enabled", .bool true),
   ("verbosity", .str "medium")]

/-- The recognized voice-settings keys. -/
def recognizedKeys : List String :=
  ["tts_provider", "stt_provider", "tts_voice", "tts_speed",
   "auto_speak", "narration_enabled", "verbosity"]

/-- A conversation session (`Session`, lines 30-50 of `session.py`).
The settings dictionary is an association list with unique keys. -/
structure Session where
  session_id : String
  history : List Message
  voice_settings : List (String × Val)
  created_at : ℚ
  last_activity : ℚ
deriving DecidableEq

/-- Constructing a `Session` (dataclass fields plus `__post_init__`,
lines 30-50): the defaults are filled in only when the supplied
settings dictionary is falsy, i.e. empty. -/
def mkSession (id : String) (supplied : List (String × Val)) (now : ℚ) :
    Session :=
  { session_id := id
    history := []
    voice_settings := if supplied = [] then defaultVoiceSettings else supplied
    created_at := now
    last_activity := now }

/-! ## Session registry (`SessionManager`, lines 110-223) -/

/-- The session registry.  `supply`/`ctr` model the `uuid4()` id
generator: the `n`-th created session receives id `supply n`. -/
structure Manager where
  sessions : List (String × Session)
  current : Option String
  supply : ℕ → String
  ctr : ℕ

/-- Python `dict` lookup on the association list (keys are unique by
construction, mirroring `dict`). -/
def dlookup (k : String) : List (String × Session) → Option Session
  | [] => none
  | (a, b) :: t => if k = a then some b else dlookup k t

/-- Python `dict` assignment `self.sessions[id] = session`: replace in
place when the key exists, append otherwise. -/
def dictInsert (l : List (String × Session)) (k : String) (v : Session) :
    List (String × Session) :=
  if (dlookup k l).isSome then
    l.map fun p => if p.1 = k then (k, v) else p
  else l ++ [(k, v)]

/-- `create_session` (lines 118-127): a fresh session becomes current. -/
def createSession (m : Manager) (now : ℚ) : Session × Manager :=
  let id := m.supply m.ctr
  let s := mkSession id [] now
  (s, { m with sessions := dictInsert m.sessions id s
               current := some id
               ctr := m.ctr + 1 })

/-- `get_session` (lines 129-138). -/
def getSession (m : Manager) (sid : String) : Option Session :=
  dlookup sid m.sessions

/-- `get_or_create_session` (lines 140-155).  `sid? = none` models a
call without an id, which falls back to the current pointer.  The
Python guard `if session_id and session_id in self.sessions` treats the
empty string as falsy. -/
def getOrCreateSession (m : Manager) (sid? : Option String) (now : ℚ) :
    Session × Manager :=
  match (match sid? with | none => m.current | some s => some s) with
  | some s =>
    if s ≠ "" then
      match dlookup s m.sessions with
      | some sess => (sess, m)
      | none => createSession m now
    else createSession m now
  | none => createSession m now

/-- `get_current_session` (lines 157-163): delegates to
`get_or_create_session` with the current pointer. -/
def getCurrentSession (m : Manager) (now : ℚ) : Session × Manager :=
  getOrCreateSession m m.current now

/-- `set_current_session` (lines 165-177). -/
def setCurrentSession (m : Manager) (sid : String) : Manager × Bool :=
  if (dlookup sid m.sessions).isSome then
    ({ m with current := some sid }, true)
  else (m, false)

/-- `delete_session` (lines 179-193): remove the entry and clear the
current pointer when it referenced the deleted id; report whether a
session was deleted. -/
def deleteSession (m : Manager) (sid : String) : Manager × Bool :=
  if (dlookup sid m.sessions).isSome then
    ({ m with sessions := m.sessions.filter fun p => p.1 ≠ sid
              current := if m.current = some sid then none else m.current },
     true)
  else (m, false)

/-- The deletion loop `for session_id in to_delete:
self.delete_session(session_id)` of `cleanup_inactive_sessions`. -/
def deleteAll (m : Manager) (ids : List String) : Manager :=
  ids.foldl (fun acc id => (deleteSession acc id).1) m

/-- `cleanup_inactive_sessions` (lines 203-223): collect the ids whose
age in hours, `(now - last_activity) / 3600`, strictly exceeds
`maxAge`, delete each, and return the count collected. -/
def cleanupInactiveSessions (m : Manager) (now maxAge : ℚ) : Manager × ℕ :=
  let toDelete :=
    (m.sessions.filter fun p => (now - p.2.last_activity) / 3600 > maxAge).map
      Prod.fst
  (deleteAll m toDelete, toDelete.length)

/-- The registry invariant: a set current pointer names a key of the
sessions map. -/
def Inv (m : Manager) : Prop :=
  ∀ id, m.current = some id → (dlookup id m.sessions).isSome = true

/-! ## Voice controller (`voice_controller.py`) -/

/-- Result of `extract_and_speak_narration`: the returned narration and
the text handed to `speak_async`, if any. -/
structure SpeakOutcome where
  returned : Option (List Char)
  spoken : Option (List Char)
deriving DecidableEq

/-- `self.session.voice_settings.get(key, default)`. -/
def getSetting (vs : List (String × Val)) (k : String) (dflt : Val) : Val :=
  (vs.lookup k).getD dflt

/-- `extract_and_speak_narration` (lines 57-75 of
`voice_controller.py`): extract with `extract_narration(text)` — the
`multi_point` parameter defaults to `True`, so this is the all-combined
mode — then, when the narration is truthy (present and nonempty) and
`narration_enabled` and `auto_speak` are truthy (both default to true
when absent), hand the narration to `speak_async`; the narration is
returned in every case. -/
def extractAndSpeakNarration (vs : List (String × Val)) (text : List Char) :
    SpeakOutcome :=
  match extractNarration text true with
  | none => ⟨none, none⟩
  | some n =>
    if n ≠ [] ∧ truthy (getSetting vs "narration_enabled" (.bool true)) then
      if truthy (getSetting vs "auto_speak" (.bool true)) then
        ⟨some n, some n⟩
      else ⟨some n, none⟩
    else ⟨some n, none⟩

/-- The `try ... except Exception: logging.error(...)` wrapper of the
speak operations: a failing speech call is logged and swallowed. -/
def swallowErrors (r : Except String Unit) : Except String Unit :=
  match r with
  | .ok _ => .ok ()
  | .error _ => .ok ()

/-- `speak_async` (lines 77-106): fire-and-forget dispatch, either
spawning the background script (modelled by the `spawn` outcome when
the script exists) or calling the provider directly; any exception is
caught and logged. -/
def speakAsync (scriptExists : Bool) (spawn : Except String Unit)
    (tts : List Char → Except String Unit) (text : List Char) :
    Except String Unit :=
  swallowErrors (if scriptExists then spawn else tts text)

/-- `speak_sync` (lines 108-119): blocking provider call with the same
catch-and-log wrapper. -/
def speakSync (tts : List Char → Except String Unit) (text : List Char) :
    Except String Unit :=
  swallowErrors (tts text)

/-! ## Fully-clean text

A class of strings on which every step of the cleaning pass acts as the
identity: ASCII letters and digits separated by single interior spaces.
Such text is a fixed point of `cleanNarration`, which is the sense in
which cleaning is idempotent on already-cleaned text. -/

/-- An ASCII letter or digit. -/
def isNiceChar (c : Char) : Bool :=
  (0x41 ≤ c.toNat && c.toNat ≤ 0x5A) || (0x61 ≤ c.toNat && c.toNat ≤ 0x7A) ||
  (0x30 ≤ c.toNat && c.toNat ≤ 0x39)

/-- No two adjacent characters are both spaces. -/
def noDoubleSpaceB : List Char → Bool
  | a :: b :: t => !(a = ' ' && b = ' ') && noDoubleSpaceB (b :: t)
  | _ => true

/-- Fully-clean text: ASCII letters/digits and spaces, with no leading,
trailing or doubled space. -/
def NiceStr (l : List Char) : Prop :=
  (∀ c ∈ l, isNiceChar c = true ∨ c = ' ') ∧
  noDoubleSpaceB l = true ∧
  l.head? ≠ some ' ' ∧ l.getLast? ≠ some ' '

/-! ## Concrete fixtures used by the counterexamples and witnesses -/

/-- A response carrying two narration blocks. -/
def twoBlockText : List Char :=
  "[VOICE_NARRATION]A[/VOICE_NARRATION] mid [VOICE_NARRATION]B[/VOICE_NARRATION]".data

/-- A response whose single narration block cleans to the empty string. -/
def emptyBlockText : List Char :=
  "[VOICE_NARRATION]  [/VOICE_NARRATION]".data

/-- A one-block response used by witnesses. -/
def oneBlockText : List Char :=
  "pre [VOICE_NARRATION]Hi[/VOICE_NARRATION] post".data

/-- The string on which cleaning fails to be idempotent: deleting the
URL leaves a double space that only a second pass collapses. -/
def urlText : List Char := "a https://u b".data

/-- An id supply standing in for `uuid4()` in witnesses: the `n`-th id
is a run of `n + 1` letters `a`, so all ids are distinct and nonempty. -/
def idSupply (n : ℕ) : String := String.mk (List.replicate (n + 1) 'a')

/-- A concrete registry with one session, used by witnesses. -/
def witnessManager : Manager :=
  { sessions := [("a", mkSession "a" [] 0)]
    current := some "a"
    supply := idSupply
    ctr := 1 }

/-- A three-session registry with one stale session, used by the
cleanup witness: ages at `now = 90000` are 25h, 24h and 1h. -/
def cleanupManager : Manager :=
  { sessions := [("a", mkSession "a" [] 0),
                 ("aa", mkSession "aa" [] 3600),
                 ("aaa", mkSession "aaa" [] 86400)]
    current := some "a"
    supply := idSupply
    ctr := 3 }

/-! # Theorems -/

/-- Equation for `extractAndSpeakNarration` when nothing is extracted. -/
theorem extractAndSpeak_none {vs : List (String × Val)} {text : List Char}
    (h : extractNarration text true = none) :
    extractAndSpeakNarration vs text = ⟨none, none⟩ := by
  unfold extractAndSpeakNarration
  rw [h]

/-- Equation for `extractAndSpeakNarration` when a narration is
extracted. -/
theorem extractAndSpeak_some {vs : List (String × Val)} {text b : List Char}
    (h : extractNarration text true = some b) :
    extractAndSpeakNarration vs text =
      if b ≠ [] ∧ truthy (getSetting vs "narration_enabled" (.bool true)) then
        (if truthy (getSetting vs "auto_speak" (.bool true)) then
          ⟨some b, some b⟩
        else ⟨some b, none⟩)
      else ⟨some b, none⟩ := by
  unfold extractAndSpeakNarration
  rw [h]

/-- `extract_and_speak_narration` always returns exactly what the
extractor produced, whatever the settings. -/
theorem returned_eq_extract (vs : List (String × Val)) (text : List Char) :
    (extractAndSpeakNarration vs text).returned = extractNarration text true := by
  cases h : extractNarration text true with
  | none => rw [extractAndSpeak_none h]
  | some n =>
    rw [extractAndSpeak_some h]
    split_ifs <;> rfl

/-- C1, counterexample: on a response with two narration blocks the
controller returns both blocks joined by `". "`, not the first block
that first-only extraction yields, so `extract_and_speak_narration`
does not run the extractor in first-only mode. -/
theorem c1_counterexample :
    (extractAndSpeakNarration defaultVoiceSettings twoBlockText).returned =
      some "A. B".data ∧
    extractNarration twoBlockText false = some "A".data ∧
    (some "A. B".data : Option (List Char)) ≠ some "A".data := by
  refine ⟨by decide, by decide, by decide⟩

/-- C1 (amended): `extract_and_speak_narration` runs the extractor in
all-combined (multi-point) mode; it hands the narration to
`speak_async` exactly when the narration is present and nonempty and
the session's `narration_enabled` and `auto_speak` settings are truthy
(defaulting to true when absent); and it returns the extracted
narration (or absence) in every case. -/
theorem c1_amended (vs : List (String × Val)) (text : List Char) :
    (extractAndSpeakNarration vs text).returned = extractNarration text true ∧
    ∀ n, ((extractAndSpeakNarration vs text).spoken = some n ↔
      (extractNarration text true = some n ∧ n ≠ [] ∧
       truthy (getSetting vs "narration_enabled" (.bool true)) = true ∧
       truthy (getSetting vs "auto_speak" (.bool true)) = true)) := by
  refine ⟨returned_eq_extract vs text, fun n => ?_⟩
  cases h : extractNarration text true with
  | none =>
    rw [extractAndSpeak_none h]
    constructor
    · rintro ⟨⟩
    · rintro ⟨⟨⟩, -⟩
  | some b =>
    rw [extractAndSpeak_some h]
    split_ifs with h1 h2
    · constructor
      · intro hb
        injection hb with hb
        subst hb
        exact ⟨rfl, h1.1, h1.2, h2⟩
      · rintro ⟨hb, -, -, -⟩
        injection hb with hb
        rw [hb]
    · constructor
      · rintro ⟨⟩
      · rintro ⟨-, -, -, hauto⟩
        exact absurd hauto h2
    · constructor
      · rintro ⟨⟩
      · rintro ⟨hb, hne, hen, -⟩
        injection hb with hb
        subst hb
        exact absurd ⟨hne, hen⟩ h1

/-- C1, witness: with default settings a nonempty narration is spoken. -/
theorem c1_witness :
    (extractAndSpeakNarration defaultVoiceSettings oneBlockText).spoken =
      some "Hi".data :=
  ((c1_amended defaultVoiceSettings oneBlockText).2 "Hi".data).mpr
    ⟨by decide, by decide, by decide, by decide⟩

/-- C5: `speak_async` and `speak_sync` return normally for every
provider behaviour, including a raising provider (the failure is
swallowed), and the narration returned by `extract_and_speak_narration`
does not depend on the provider at all. -/
theorem c5_speak_failure_isolation :
    (∀ (scriptExists : Bool) (spawn : Except String Unit)
       (tts : List Char → Except String Unit) (text : List Char),
        speakAsync scriptExists spawn tts text = .ok ()) ∧
    (∀ (tts : List Char → Except String Unit) (text : List Char),
        speakSync tts text = .ok ()) ∧
    (∀ (vs : List (String × Val)) (text : List Char),
        (extractAndSpeakNarration vs text).returned =
          extractNarration text true) := by
  refine ⟨fun se sp tts t => ?_, fun tts t => ?_, returned_eq_extract⟩
  · unfold speakAsync swallowErrors
    cases (if se then sp else tts t) <;> rfl
  · unfold speakSync swallowErrors
    cases tts t <;> rfl

/-- C6: in all-combined mode, a text with at least two narration blocks
extracts to the independently cleaned blocks joined by `". "` in source
order, and a text with no narration block extracts to nothing. -/
theorem c6_all_combined (text : List Char) :
    (2 ≤ (findAllBlocks text).length →
      extractNarration text true =
        some (List.intercalate ". ".data
          ((findAllBlocks text).map cleanNarration))) ∧
    ((findAllBlocks text).length = 0 → extractNarration text true = none) := by
  constructor
  · intro h2
    unfold extractNarration
    cases h : findAllBlocks text with
    | nil => rw [h] at h2; simp at h2
    | cons b bs => simp only [h, if_true]
  · intro h0
    unfold extractNarration
    cases h : findAllBlocks text with
    | nil => simp
    | cons b bs => rw [h] at h0; simp at h0

/-- C6, witness: the two-block fixture extracts to `"A. B"`. -/
theorem c6_witness :
    2 ≤ (findAllBlocks twoBlockText).length ∧
    extractNarration twoBlockText true =
      some (List.intercalate ". ".data
        ((findAllBlocks twoBlockText).map cleanNarration)) :=
  ⟨by decide, (c6_all_combined twoBlockText).1 (by decide)⟩

/-- C9: a narration that cleans to the empty string is returned as the
empty string (not absence) but is never handed to `speak_async`,
whatever the settings say. -/
theorem c9_empty_not_spoken (vs : List (String × Val)) (text : List Char)
    (h : extractNarration text true = some []) :
    extractAndSpeakNarration vs text = ⟨some [], none⟩ := by
  rw [extractAndSpeak_some h]
  simp

/-- C9, witness: a blank narration block, with narration and
auto-speak both enabled, is returned as empty and not spoken. -/
theorem c9_witness :
    extractNarration emptyBlockText true = some [] ∧
    extractAndSpeakNarration
      [("narration_enabled", Val.bool true), ("auto_speak", Val.bool true)]
      emptyBlockText = ⟨some [], none⟩ :=
  ⟨by decide, c9_empty_not_spoken _ _ (by decide)⟩

/-- C4, counterexample: a session constructed with a partial settings
mapping keeps it as-is; the recognized key `tts_provider` is absent. -/
theorem c4_counterexample :
    "tts_provider" ∈ recognizedKeys ∧
    ((mkSession "s1" [("verbosity", Val.str "brief")] 0).voice_settings.lookup
      "tts_provider") = none := by
  refine ⟨by decide, by decide⟩

/-- C4 (amended): immediately after construction, `voice_settings`
contains the complete set of the seven recognized keys when the caller
supplies no settings (the defaults are filled in); a caller-supplied
nonempty mapping — partial or not — is stored exactly as given, with no
defaults filled in. -/
theorem c4_amended (id : String) (now : ℚ) :
    (∀ k ∈ recognizedKeys,
      ((mkSession id [] now).voice_settings.lookup k).isSome) ∧
    (∀ vs, vs ≠ [] → (mkSession id vs now).voice_settings = vs) := by
  constructor
  · intro k hk
    have : (mkSession id [] now).voice_settings = defaultVoiceSettings := by
      simp [mkSession]
    rw [this]
    fin_cases hk <;> decide
  · intro vs hvs
    simp [mkSession, hvs]

/-- C4, witness: all seven keys are present after a default
construction, and a one-key mapping is stored as-is. -/
theorem c4_witness :
    ((mkSession "x" [] 0).voice_settings.lookup "auto_speak").isSome ∧
    [("auto_speak", Val.bool false)] ≠ ([] : List (String × Val)) ∧
    (mkSession "x" [("auto_speak", Val.bool false)] 0).voice_settings =
      [("auto_speak", Val.bool false)] :=
  ⟨(c4_amended "x" 0).1 "auto_speak" (by decide), by decide,
   (c4_amended "x" 0).2 _ (by decide)⟩

/-! ## Cleaning acts as the identity on fully-clean text -/

/-- An ASCII letter or digit is not Python whitespace. -/
theorem nice_not_pySpace {c : Char} (h : isNiceChar c = true) :
    isPySpace c = false := by
  simp only [isNiceChar, Bool.or_eq_true, Bool.and_eq_true,
    decide_eq_true_eq] at h
  simp only [isPySpace, Bool.or_eq_false_iff, Bool.and_eq_false_iff,
    decide_eq_false_iff_not]
  omega

/-- A letter, digit or space is distinct from any character that is
neither a letter, a digit nor the space. -/
theorem niceOrSpace_ne {c : Char} (h : isNiceChar c = true ∨ c = ' ')
    (x : Char) (hx1 : isNiceChar x = false) (hx2 : x ≠ ' ') : c ≠ x := by
  rintro rfl
  rcases h with h | h
  · rw [hx1] at h
    cases h
  · exact hx2 h

/-- A letter, digit or space is not in the emoji ranges. -/
theorem niceOrSpace_not_emoji {c : Char}
    (h : isNiceChar c = true ∨ c = ' ') : isEmoji c = false := by
  rcases h with h | h
  · simp only [isNiceChar, Bool.or_eq_true, Bool.and_eq_true,
      decide_eq_true_eq] at h
    simp only [isEmoji, Bool.or_eq_false_iff, Bool.and_eq_false_iff,
      decide_eq_false_iff_not]
    omega
  · subst h
    decide

/-- A letter, digit or space is not in the stray-symbol class. -/
theorem niceOrSpace_not_symCls {c : Char}
    (h : isNiceChar c = true ∨ c = ' ') : isSymCls c = false := by
  rcases h with h | h
  · have hw : isPyWord c = true := by
      simp only [isNiceChar, Bool.or_eq_true, Bool.and_eq_true,
        decide_eq_true_eq] at h
      simp only [isPyWord, Bool.or_eq_true, Bool.and_eq_true,
        decide_eq_true_eq]
      omega
    simp [isSymCls, hw]
  · subst h
    decide

/-- `dropWhile isPySpace` is the identity on letters/digits/spaces text
that does not start with a space. -/
theorem dropWhile_pySpace_eq_self {l : List Char}
    (hall : ∀ c ∈ l, isNiceChar c = true ∨ c = ' ')
    (hhd : l.head? ≠ some ' ') : l.dropWhile isPySpace = l := by
  cases l with
  | nil => rfl
  | cons c t =>
    have hc : isNiceChar c = true := by
      rcases hall c (List.mem_cons_self c t) with h | h
      · exact h
      · exact absurd (by simp [h]) hhd
    simp [List.dropWhile_cons, nice_not_pySpace hc]

/-- `str.strip()` is the identity on fully-clean text. -/
theorem pyStrip_eq_self {l : List Char}
    (hall : ∀ c ∈ l, isNiceChar c = true ∨ c = ' ')
    (hhd : l.head? ≠ some ' ') (hlast : l.getLast? ≠ some ' ') :
    pyStrip l = l := by
  unfold pyStrip lstrip
  rw [dropWhile_pySpace_eq_self hall hhd]
  rw [dropWhile_pySpace_eq_self (fun c hc => hall c (List.mem_reverse.mp hc))
    (by rwa [List.head?_reverse])]
  exact List.reverse_reverse l

/-- The newline-collapsing scanner is the identity on newline-free
text, from any state. -/
theorem subNlGo_eq_self {l : List Char} (h : ∀ c ∈ l, c ≠ '\n') :
    ∀ b, subNlGo b l = l := by
  induction l with
  | nil => intro b; rfl
  | cons c t ih =>
    intro b
    have hc : c ≠ '\n' := h c (List.mem_cons_self c t)
    simp only [subNlGo, if_neg hc]
    rw [ih fun x hx => h x (List.mem_cons_of_mem c hx)]

/-- The heading scanner is the identity on `#`-free text in the plain
state. -/
theorem shGo_txt_eq_self {l : List Char} (h : ∀ c ∈ l, c ≠ '#') :
    shGo .txt l = l := by
  induction l with
  | nil => rfl
  | cons c t ih =>
    have hc : c ≠ '#' := h c (List.mem_cons_self c t)
    simp only [shGo, if_neg hc]
    rw [ih fun x hx => h x (List.mem_cons_of_mem c hx)]

/-- `List.filter` keeps a list whose members all pass the test. -/
theorem filter_eq_self_of_mem {p : Char → Bool} {l : List Char}
    (h : ∀ c ∈ l, p c = true) : l.filter p = l := by
  induction l with
  | nil => rfl
  | cons c t ih =>
    rw [List.filter_cons, if_pos (h c (List.mem_cons_self c t))]
    rw [ih fun x hx => h x (List.mem_cons_of_mem c hx)]

/-- The warning-pair deletion is the identity on text free of the
warning sign U+26A0. -/
theorem removeWarnPair_eq_self {l : List Char}
    (h : ∀ c ∈ l, c ≠ Char.ofNat 0x26A0) : removeWarnPair l = l := by
  induction l with
  | nil => rfl
  | cons c t ih =>
    cases t with
    | nil => rfl
    | cons c2 t2 =>
      have hc : c ≠ Char.ofNat 0x26A0 := h c (List.mem_cons_self _ _)
      have hno : ¬(c = Char.ofNat 0x26A0 ∧ c2 = Char.ofNat 0xFE0F) :=
        fun hp => hc hp.1
      show (if c = Char.ofNat 0x26A0 ∧ c2 = Char.ofNat 0xFE0F then
              removeWarnPair t2
            else c :: removeWarnPair (c2 :: t2)) = c :: c2 :: t2
      rw [if_neg hno, ih fun x hx => h x (List.mem_cons_of_mem c hx)]

/-- Dash normalization is the identity on dash-free text. -/
theorem normalizeDashes_eq_self {l : List Char}
    (h : ∀ c ∈ l, c ≠ '—' ∧ c ≠ '–') : normalizeDashes l = l := by
  induction l with
  | nil => rfl
  | cons c t ih =>
    have hc := h c (List.mem_cons_self c t)
    simp only [normalizeDashes, List.map_cons, if_neg hc.1, if_neg hc.2]
    have := ih fun x hx => h x (List.mem_cons_of_mem c hx)
    simp only [normalizeDashes] at this
    rw [this]

/-- The whitespace-collapsing scanner maps a non-whitespace head the
same way from either state. -/
theorem subWsGo_state_irrel {l : List Char}
    (h : ∀ c, l.head? = some c → isPySpace c = false) (b : Bool) :
    subWsGo b l = subWsGo false l := by
  cases l with
  | nil => cases b <;> rfl
  | cons c t =>
    have hc := h c rfl
    simp only [subWsGo, hc, Bool.false_eq_true, if_false]

/-- `noDoubleSpaceB` restricts to the tail. -/
theorem noDoubleSpaceB_tail {c : Char} {t : List Char}
    (h : noDoubleSpaceB (c :: t) = true) : noDoubleSpaceB t = true := by
  cases t with
  | nil => rfl
  | cons b t2 =>
    simp only [noDoubleSpaceB, Bool.and_eq_true] at h
    exact h.2

/-- `noDoubleSpaceB` forbids a doubled space at the head. -/
theorem noDoubleSpaceB_head {c b : Char} {t : List Char}
    (h : noDoubleSpaceB (c :: b :: t) = true) : ¬(c = ' ' ∧ b = ' ') := by
  simp only [noDoubleSpaceB, Bool.and_eq_true] at h
  intro hp
  have h1 := h.1
  rw [hp.1, hp.2] at h1
  simp at h1

/-- The whitespace-collapsing scanner is the identity on
letters/digits/spaces text with no doubled space. -/
theorem subWsGo_eq_self {l : List Char}
    (hall : ∀ c ∈ l, isNiceChar c = true ∨ c = ' ')
    (hch : noDoubleSpaceB l = true) :
    subWsGo false l = l := by
  induction l with
  | nil => rfl
  | cons c t ih =>
    have hall' : ∀ x ∈ t, isNiceChar x = true ∨ x = ' ' :=
      fun x hx => hall x (List.mem_cons_of_mem c hx)
    have iht := ih hall' (noDoubleSpaceB_tail hch)
    by_cases hc : c = ' '
    · subst hc
      have hhd : ∀ x, t.head? = some x → isPySpace x = false := by
        intro x hx
        cases t with
        | nil => cases hx
        | cons c2 t2 =>
          injection hx with hx
          subst hx
          have h2 : ¬(' ' = ' ' ∧ c2 = ' ') := noDoubleSpaceB_head hch
          have hx2 : c2 ≠ ' ' := fun he => h2 ⟨rfl, he⟩
          rcases hall' c2 (List.mem_cons_self c2 t2) with hn | hn
          · exact nice_not_pySpace hn
          · exact absurd hn hx2
      show ' ' :: subWsGo true t = ' ' :: t
      rw [subWsGo_state_irrel hhd, iht]
    · have hn : isNiceChar c = true := by
        rcases hall c (List.mem_cons_self c t) with h | h
        · exact h
        · exact absurd h hc
      simp only [subWsGo, nice_not_pySpace hn, Bool.false_eq_true, if_false]
      rw [iht]

/-- The code-block scanner is the identity on backtick-free text. -/
theorem rcbGo_eq_self {l : List Char} (h : ∀ c ∈ l, c ≠ btick) :
    rcbGo none 0 l = l := by
  induction l with
  | nil => rfl
  | cons c t ih =>
    have hc : c ≠ btick := h c (List.mem_cons_self c t)
    simp only [rcbGo, if_neg hc, List.replicate_zero, List.nil_append]
    rw [ih fun x hx => h x (List.mem_cons_of_mem c hx)]

/-- The emphasis scanner is the identity on star-free text from the
scanning state. -/
theorem sbGo_none_eq_self :
    ∀ (n : ℕ) (l : List Char), l.length ≤ n → (∀ c ∈ l, c ≠ '*') →
      sbGo none l = l := by
  intro n
  induction n with
  | zero =>
    intro l hl _
    rw [List.length_eq_zero.mp (Nat.le_zero.mp hl)]
    rfl
  | succ n ih =>
    intro l hl hmem
    rw [sbGo.eq_def]
    split
    · rfl
    · exact absurd rfl (hmem '*' (List.mem_cons_self _ _))
    · exact absurd rfl (hmem '*' (List.mem_cons_self _ _))
    · rename_i hx0 rest
      show '\n' :: sbGo none rest = '\n' :: rest
      rw [ih rest (by simp at hl; omega)
        (fun x hx => hmem x (List.mem_cons_of_mem _ hx))]
    · rename_i hx0 c rest hx1 hx2 hx3
      show c :: sbGo none rest = c :: rest
      rw [ih rest (by simp at hl; omega)
        (fun x hx => hmem x (List.mem_cons_of_mem _ hx))]

/-- The link scanner is the identity on text with no opening bracket,
from the scanning state. -/
theorem slGo_txt_eq_self :
    ∀ (n : ℕ) (l : List Char), l.length ≤ n → (∀ c ∈ l, c ≠ '[') →
      slGo .txt l = l := by
  intro n
  induction n with
  | zero =>
    intro l hl _
    rw [List.length_eq_zero.mp (Nat.le_zero.mp hl)]
    rfl
  | succ n ih =>
    intro l hl hmem
    rw [slGo.eq_def]
    split
    · rfl
    · rename_i hx0 rest
      show ']' :: '(' :: slGo .txt rest = ']' :: '(' :: rest
      rw [ih rest (by simp at hl; omega)
        (fun x hx => hmem x (List.mem_cons_of_mem _ (List.mem_cons_of_mem _ hx)))]
    · rename_i hx0 c rest hx1
      have hc : c ≠ '[' := hmem c (List.mem_cons_self c rest)
      show (if c = '[' then slGo (.brack []) rest else c :: slGo .txt rest) =
        c :: rest
      rw [if_neg hc, ih rest (by simp at hl; omega)
        (fun x hx => hmem x (List.mem_cons_of_mem _ hx))]

/-- A URL match needs a slash. -/
theorem urlMatch_none {l : List Char} (h : '/' ∉ l) : urlMatch l = none := by
  unfold urlMatch
  split_ifs with h1 h2
  · exact absurd (List.take_subset 8 l (by rw [h1]; decide)) h
  · exact absurd (List.take_subset 7 l (by rw [h2]; decide)) h
  · rfl

/-- The URL scanner is the identity on slash-free text. -/
theorem ruGo_eq_self :
    ∀ (fuel : ℕ) (l : List Char), '/' ∉ l → ruGo fuel l = l := by
  intro fuel
  induction fuel with
  | zero => intro l _; rfl
  | succ n ih =>
    intro l h
    cases l with
    | nil => rfl
    | cons c rest =>
      have h' : '/' ∉ rest := fun hx => h (List.mem_cons_of_mem c hx)
      show (match urlMatch (c :: rest) with
            | some after => ruGo n after
            | none => c :: ruGo n rest) = c :: rest
      rw [urlMatch_none h]
      rw [ih rest h']

/-- Members of `dropWhile` are members of the list. -/
theorem mem_of_mem_dropWhile {p : Char → Bool} {l : List Char} {c : Char}
    (h : c ∈ l.dropWhile p) : c ∈ l := by
  induction l with
  | nil => exact absurd h (by simp)
  | cons a t ih =>
    rw [List.dropWhile_cons] at h
    split_ifs at h with ha
    · exact List.mem_cons_of_mem a (ih h)
    · exact h

/-- A stray-symbol match needs a symbol-class character. -/
theorem isoMatch_none {l : List Char} (h : ∀ c ∈ l, isSymCls c = false) :
    isoMatch l = none := by
  have hsym : (l.dropWhile isPySpace).takeWhile isSymCls = [] := by
    cases hdl : l.dropWhile isPySpace with
    | nil => rfl
    | cons a t =>
      have ha : isSymCls a = false :=
        h a (mem_of_mem_dropWhile (hdl ▸ List.mem_cons_self a t))
      simp [List.takeWhile_cons, ha]
  simp only [isoMatch, hsym]
  simp

/-- The stray-symbol scanner is the identity on symbol-free text. -/
theorem siGo_eq_self :
    ∀ (fuel : ℕ) (l : List Char), (∀ c ∈ l, isSymCls c = false) →
      siGo fuel l = l := by
  intro fuel
  induction fuel with
  | zero => intro l _; rfl
  | succ n ih =>
    intro l h
    cases l with
    | nil => rfl
    | cons c rest =>
      have h' : ∀ x ∈ rest, isSymCls x = false :=
        fun x hx => h x (List.mem_cons_of_mem c hx)
      show (match isoMatch (c :: rest) with
            | some after => ' ' :: siGo n after
            | none => c :: siGo n rest) = c :: rest
      rw [isoMatch_none h]
      rw [ih rest h']

/-- Every step of the cleaning pass fixes fully-clean text, so
`clean_narration` is the identity there. -/
theorem cleanNarration_eq_self {l : List Char} (h : NiceStr l) :
    cleanNarration l = l := by
  obtain ⟨hall, hch, hhd, hlast⟩ := h
  have hne : ∀ (x : Char), isNiceChar x = false → x ≠ ' ' →
      ∀ c ∈ l, c ≠ x := fun x hx1 hx2 c hc =>
    niceOrSpace_ne (hall c hc) x hx1 hx2
  unfold cleanNarration
  rw [pyStrip_eq_self hall hhd hlast]
  show pyStrip (subIsolated (removeURLs (subWs (emojiFilter (symReplaces
    (subLinks (subBold (subHeading (removeBackticks (removeCodeBlocks
      (subNlGo false l))))))))))) = l
  rw [subNlGo_eq_self (hne '\n' (by decide) (by decide)) false]
  show pyStrip (subIsolated (removeURLs (subWs (emojiFilter (symReplaces
    (subLinks (subBold (subHeading (removeBackticks (rcbGo none 0 l)))))))))) = l
  rw [rcbGo_eq_self (hne btick (by decide) (by decide))]
  show pyStrip (subIsolated (removeURLs (subWs (emojiFilter (symReplaces
    (subLinks (subBold (subHeading (List.filter (· ≠ btick) l))))))))) = l
  rw [filter_eq_self_of_mem
    (fun c hc => by simpa using hne btick (by decide) (by decide) c hc)]
  show pyStrip (subIsolated (removeURLs (subWs (emojiFilter (symReplaces
    (subLinks (subBold (shGo .txt l)))))))) = l
  rw [shGo_txt_eq_self (hne '#' (by decide) (by decide))]
  show pyStrip (subIsolated (removeURLs (subWs (emojiFilter (symReplaces
    (subLinks (sbGo none l))))))) = l
  rw [sbGo_none_eq_self l.length l le_rfl (hne '*' (by decide) (by decide))]
  show pyStrip (subIsolated (removeURLs (subWs (emojiFilter (symReplaces
    (slGo .txt l)))))) = l
  rw [slGo_txt_eq_self l.length l le_rfl (hne '[' (by decide) (by decide))]
  unfold symReplaces
  have hrc : ∀ (x : Char), isNiceChar x = false → x ≠ ' ' →
      ∀ (m : List Char), (∀ c ∈ m, isNiceChar c = true ∨ c = ' ') →
      removeChar x m = m := fun x hx1 hx2 m hm =>
    filter_eq_self_of_mem
      (fun c hc => by simpa using niceOrSpace_ne (hm c hc) x hx1 hx2)
  rw [hrc '✅' (by decide) (by decide) l hall, hrc '✓' (by decide) (by decide) l hall,
    hrc '❌' (by decide) (by decide) l hall, hrc '✗' (by decide) (by decide) l hall,
    removeWarnPair_eq_self (hne (Char.ofNat 0x26A0) (by decide) (by decide)),
    hrc (Char.ofNat 0x1F389) (by decide) (by decide) l hall,
    hrc (Char.ofNat 0x1F3A4) (by decide) (by decide) l hall,
    hrc (Char.ofNat 0x1F50A) (by decide) (by decide) l hall,
    hrc (Char.ofNat 0x1F4E2) (by decide) (by decide) l hall,
    hrc '→' (by decide) (by decide) l hall, hrc '•' (by decide) (by decide) l hall,
    normalizeDashes_eq_self (fun c hc =>
      ⟨hne '—' (by decide) (by decide) c hc, hne '–' (by decide) (by decide) c hc⟩)]
  rw [show emojiFilter l = l from filter_eq_self_of_mem
    (fun c hc => by simp [niceOrSpace_not_emoji (hall c hc)])]
  show pyStrip (subIsolated (removeURLs (subWsGo false l))) = l
  rw [subWsGo_eq_self hall hch]
  show pyStrip (subIsolated (ruGo l.length l)) = l
  rw [ruGo_eq_self l.length l (fun hmem => absurd (hall '/' hmem) (by decide))]
  show pyStrip (siGo l.length l) = l
  rw [siGo_eq_self l.length l
    (fun c hc => niceOrSpace_not_symCls (hall c hc))]
  exact pyStrip_eq_self hall hhd hlast

/-- C3, counterexample: cleaning is not idempotent — deleting the URL
from `"a https://u b"` leaves the double space `"a  b"`, which a second
pass collapses to `"a b"`. -/
theorem c3_counterexample :
    cleanNarration (cleanNarration urlText) ≠ cleanNarration urlText := by
  decide

/-- C3 (amended): cleaning is idempotent on already-cleaned text — on
strings of ASCII letters and digits separated by single interior spaces
the cleaning pass acts as the identity, hence applying it twice equals
applying it once — but it is not idempotent on all strings, because URL
deletion can expose a doubled space that only a second pass collapses. -/
theorem c3_amended (l : List Char) (h : NiceStr l) :
    cleanNarration l = l ∧
    cleanNarration (cleanNarration l) = cleanNarration l := by
  have he := cleanNarration_eq_self h
  exact ⟨he, by rw [he, he]⟩

/-- C3, witness: `"hello world"` is fully clean and cleaning it twice
equals cleaning it once. -/
theorem c3_witness :
    NiceStr "hello world".data ∧
    cleanNarration (cleanNarration "hello world".data) =
      cleanNarration "hello world".data :=
  ⟨⟨by decide, by decide, by decide, by decide⟩,
   (c3_amended "hello world".data
     ⟨by decide, by decide, by decide, by decide⟩).2⟩

/-! ## The heading step deletes `#` runs anywhere, not only at line
starts -/

/-- The heading scanner emits a `#`-free segment verbatim. -/
theorem shGo_txt_append {u r : List Char} (hu : '#' ∉ u) :
    shGo .txt (u ++ r) = u ++ shGo .txt r := by
  induction u with
  | nil => rfl
  | cons c t ih =>
    have hc : c ≠ '#' := fun he => hu (he ▸ List.mem_cons_self c t)
    simp only [List.cons_append, List.append_eq, shGo, if_neg hc]
    rw [ih fun hx => hu (List.mem_cons_of_mem c hx)]

/-- In the hash state, further `#` characters are consumed. -/
theorem shGo_hash_hashes {hs r : List Char} (h : ∀ c ∈ hs, c = '#') :
    shGo .hash (hs ++ r) = shGo .hash r := by
  induction hs with
  | nil => rfl
  | cons c t ih =>
    have hc : c = '#' := h c (List.mem_cons_self c t)
    subst hc
    simp only [List.cons_append, shGo, if_pos rfl]
    exact ih fun x hx => h x (List.mem_cons_of_mem _ hx)

/-- In the trailing-whitespace state, the whitespace run is consumed
and scanning resumes in the plain state at the next ordinary
character. -/
theorem shGo_sp_ws {ws v : List Char} (hws : ∀ c ∈ ws, isPySpace c = true)
    (hv : ∀ c, v.head? = some c → c ≠ '#' ∧ isPySpace c = false) :
    shGo .sp (ws ++ v) = shGo .txt v := by
  induction ws with
  | nil =>
    cases v with
    | nil => rfl
    | cons c t =>
      obtain ⟨h1, h2⟩ := hv c rfl
      simp only [List.nil_append, shGo, h2, Bool.false_eq_true, if_false,
        if_neg h1]
  | cons w ws' ih =>
    have hw : isPySpace w = true := hws w (List.mem_cons_self w ws')
    simp only [List.cons_append, shGo, hw, if_true]
    exact ih fun x hx => hws x (List.mem_cons_of_mem _ hx)

/-- From the hash state, a whitespace run is consumed and scanning
resumes in the plain state. -/
theorem shGo_hash_ws {ws v : List Char} (hws : ∀ c ∈ ws, isPySpace c = true)
    (hv : ∀ c, v.head? = some c → c ≠ '#' ∧ isPySpace c = false) :
    shGo .hash (ws ++ v) = shGo .txt v := by
  cases ws with
  | nil =>
    cases v with
    | nil => rfl
    | cons c t =>
      obtain ⟨h1, h2⟩ := hv c rfl
      simp only [List.nil_append, shGo, if_neg h1, h2, Bool.false_eq_true,
        if_false]
  | cons w ws' =>
    have hw : isPySpace w = true := hws w (List.mem_cons_self w ws')
    have hwne : w ≠ '#' := by
      intro he
      rw [he] at hw
      exact absurd hw (by decide)
    simp only [List.cons_append, shGo, if_neg hwne, hw, if_true]
    exact shGo_sp_ws (fun x hx => hws x (List.mem_cons_of_mem _ hx)) hv

/-- C8, counterexample: the heading step of the cleaning pass deletes
the mid-line `#` of `"issue #42"`, which the claim says should be left
alone. -/
theorem c8_counterexample :
    cleanNarration "issue #42".data = "issue 42".data ∧
    "issue 42".data ≠ "issue #42".data := by
  refine ⟨by decide, by decide⟩

/-- C8 (amended): the markdown-heading step deletes every run of `#`
characters together with the whitespace run that follows it, wherever
the run occurs in the text — mid-line occurrences included — because
the pattern `#+\s*` is not anchored to line starts. -/
theorem c8_amended (u hs ws v : List Char) (hu : '#' ∉ u) (hh : hs ≠ [])
    (hhs : ∀ c ∈ hs, c = '#') (hws : ∀ c ∈ ws, isPySpace c = true)
    (hv : ∀ c, v.head? = some c → c ≠ '#' ∧ isPySpace c = false) :
    subHeading (u ++ (hs ++ (ws ++ v))) = u ++ subHeading v := by
  unfold subHeading
  rw [shGo_txt_append hu]
  obtain ⟨h0, hs', rfl⟩ := List.exists_cons_of_ne_nil hh
  have h0h : h0 = '#' := hhs h0 (List.mem_cons_self _ _)
  subst h0h
  simp only [List.cons_append, List.append_eq, shGo, eq_self_iff_true, if_true]
  rw [shGo_hash_hashes fun x hx => hhs x (List.mem_cons_of_mem _ hx)]
  rw [shGo_hash_ws hws hv]

/-- C8, witness: `"issue #42"` decomposes as `"issue "` + `"#"` +
`"42"`, and the heading step drops the mid-line `#`. -/
theorem c8_witness :
    subHeading ("issue ".data ++ (['#'] ++ ([] ++ "42".data))) =
      "issue ".data ++ subHeading "42".data :=
  c8_amended "issue ".data ['#'] [] "42".data (by decide) (by decide)
    (by decide) (by decide)
    (by
      intro c hc
      cases hc
      exact ⟨by decide, by decide⟩)

/-! ## Registry lemmas -/

/-- Replacing the entry of a present key makes it resolve to the new
value. -/
theorem dlookup_map_replace {l : List (String × Session)} {k : String}
    {v : Session} (h : (dlookup k l).isSome = true) :
    dlookup k (l.map fun p => if p.1 = k then (k, v) else p) = some v := by
  induction l with
  | nil => simp [dlookup] at h
  | cons p t ih =>
    cases p with
    | mk a b =>
      rw [List.map_cons]
      by_cases hp : a = k
      · rw [show (if (a, b).1 = k then (k, v) else (a, b)) = (k, v) from
          if_pos hp]
        show (if k = k then some v else
          dlookup k (t.map fun p => if p.1 = k then (k, v) else p)) = some v
        rw [if_pos rfl]
      · rw [show (if (a, b).1 = k then (k, v) else (a, b)) = (a, b) from
          if_neg hp]
        have hne : k ≠ a := fun he => hp he.symm
        show (if k = a then some b else
          dlookup k (t.map fun p => if p.1 = k then (k, v) else p)) = some v
        rw [if_neg hne]
        apply ih
        have hstep : dlookup k ((a, b) :: t) = dlookup k t := by
          show (if k = a then some b else dlookup k t) = dlookup k t
          rw [if_neg hne]
        rw [hstep] at h
        exact h

/-- Appending an entry for an absent key makes it resolve to the new
value. -/
theorem dlookup_append_single {l : List (String × Session)} {k : String}
    {v : Session} (h : ¬(dlookup k l).isSome = true) :
    dlookup k (l ++ [(k, v)]) = some v := by
  induction l with
  | nil =>
    show (if k = k then some v else dlookup k []) = some v
    rw [if_pos rfl]
  | cons p t ih =>
    cases p with
    | mk a b =>
      have hne : k ≠ a := by
        intro he
        apply h
        rw [show dlookup k ((a, b) :: t) = some b from by
          show (if k = a then some b else dlookup k t) = some b
          rw [if_pos he]]
        rfl
      have hstep : dlookup k ((a, b) :: t) = dlookup k t := by
        show (if k = a then some b else dlookup k t) = dlookup k t
        rw [if_neg hne]
      rw [List.cons_append]
      show (if k = a then some b else dlookup k (t ++ [(k, v)])) = some v
      rw [if_neg hne]
      apply ih
      rw [hstep] at h
      exact h

/-- Inserting a session makes its key resolvable. -/
theorem dlookup_dictInsert_self {l : List (String × Session)} {k : String}
    {v : Session} : dlookup k (dictInsert l k v) = some v := by
  unfold dictInsert
  split_ifs with h
  · exact dlookup_map_replace h
  · exact dlookup_append_single h

/-- Lookup is unchanged by filtering out a different key. -/
theorem dlookup_filter_ne {l : List (String × Session)} {k sid : String}
    (h : k ≠ sid) :
    dlookup k (l.filter fun p => p.1 ≠ sid) = dlookup k l := by
  induction l with
  | nil => rfl
  | cons p t ih =>
    by_cases hp : p.1 = sid
    · have : k ≠ p.1 := fun he => h (he.trans hp)
      rw [List.filter_cons, if_neg (by simp [hp])]
      rw [ih]
      cases p with
      | mk a b => simp only [dlookup, if_neg (by simpa using this)]
    · rw [List.filter_cons, if_pos (by simpa using hp)]
      cases p with
      | mk a b =>
        simp only [dlookup]
        split_ifs with hk
        · rfl
        · exact ih

/-- A resolvable key has an entry in the list. -/
theorem dlookup_isSome_mem {l : List (String × Session)} {k : String}
    (h : (dlookup k l).isSome = true) : ∃ v, (k, v) ∈ l := by
  induction l with
  | nil => simp [dlookup] at h
  | cons p t ih =>
    cases p with
    | mk a b =>
      by_cases hk : k = a
      · subst hk
        exact ⟨b, List.mem_cons_self _ _⟩
      · simp only [dlookup, if_neg hk] at h
        obtain ⟨v, hv⟩ := ih h
        exact ⟨v, List.mem_cons_of_mem _ hv⟩

/-- A key of the list is resolvable. -/
theorem dlookup_isSome_of_mem_keys {l : List (String × Session)} {k : String}
    (h : k ∈ l.map Prod.fst) : (dlookup k l).isSome = true := by
  induction l with
  | nil => simp at h
  | cons p t ih =>
    cases p with
    | mk a b =>
      by_cases hk : k = a
      · simp [dlookup, if_pos hk]
      · simp only [List.map_cons, List.mem_cons] at h
        rcases h with h | h
        · exact absurd h hk
        · simp only [dlookup, if_neg hk]
          exact ih h

/-- `create_session` establishes the registry invariant outright. -/
theorem inv_create (m : Manager) (now : ℚ) : Inv (createSession m now).2 := by
  intro id hid
  simp only [createSession] at hid
  injection hid with hid
  subst hid
  show (dlookup (m.supply m.ctr)
    (dictInsert m.sessions (m.supply m.ctr) _)).isSome = true
  rw [dlookup_dictInsert_self]
  rfl

/-- `get_or_create_session` preserves the registry invariant. -/
theorem inv_getOrCreate (m : Manager) (sid? : Option String) (now : ℚ)
    (h : Inv m) : Inv (getOrCreateSession m sid? now).2 := by
  unfold getOrCreateSession
  cases sid? with
  | none =>
    cases m.current with
    | none => exact inv_create m now
    | some s =>
      by_cases hs : s ≠ ""
      · cases hdl : dlookup s m.sessions with
        | none => simp only [if_pos hs, hdl]; exact inv_create m now
        | some sess => simp only [if_pos hs, hdl]; exact h
      · simp only [if_neg hs]; exact inv_create m now
  | some s =>
    by_cases hs : s ≠ ""
    · cases hdl : dlookup s m.sessions with
      | none => simp only [if_pos hs, hdl]; exact inv_create m now
      | some sess => simp only [if_pos hs, hdl]; exact h
    · simp only [if_neg hs]; exact inv_create m now

/-- `get_current_session` preserves the registry invariant. -/
theorem inv_getCurrent (m : Manager) (now : ℚ) (h : Inv m) :
    Inv (getCurrentSession m now).2 :=
  inv_getOrCreate m m.current now h

/-- `set_current_session` preserves the registry invariant. -/
theorem inv_setCurrent (m : Manager) (sid : String) (h : Inv m) :
    Inv (setCurrentSession m sid).1 := by
  unfold setCurrentSession
  split_ifs with hs
  · intro id hid
    injection hid with hid
    subst hid
    exact hs
  · exact h

/-- `delete_session` preserves the registry invariant. -/
theorem inv_delete (m : Manager) (sid : String) (h : Inv m) :
    Inv (deleteSession m sid).1 := by
  by_cases hs : (dlookup sid m.sessions).isSome = true
  · intro id hid
    unfold deleteSession at hid
    rw [if_pos hs] at hid
    simp only at hid
    by_cases hcur : m.current = some sid
    · rw [if_pos hcur] at hid
      cases hid
    · rw [if_neg hcur] at hid
      have hne : id ≠ sid := by
        intro he
        subst he
        exact hcur hid
      unfold deleteSession
      rw [if_pos hs]
      show (dlookup id (m.sessions.filter fun p => p.1 ≠ sid)).isSome = true
      rw [dlookup_filter_ne hne]
      exact h id hid
  · unfold deleteSession
    rw [if_neg hs]
    exact h

/-- The deletion loop preserves the registry invariant. -/
theorem inv_deleteAll :
    ∀ (ids : List String) (m : Manager), Inv m → Inv (deleteAll m ids) := by
  intro ids
  induction ids with
  | nil => exact fun m h => h
  | cons id t ih =>
    intro m h
    show Inv (deleteAll (deleteSession m id).1 t)
    exact ih _ (inv_delete m id h)

/-- `cleanup_inactive_sessions` preserves the registry invariant. -/
theorem inv_cleanup (m : Manager) (now maxAge : ℚ) (h : Inv m) :
    Inv (cleanupInactiveSessions m now maxAge).1 :=
  inv_deleteAll _ m h

/-- Deleting the current session clears the pointer. -/
theorem delete_current_clears (m : Manager) (sid : String) (h : Inv m)
    (hcur : m.current = some sid) : (deleteSession m sid).1.current = none := by
  unfold deleteSession
  rw [if_pos (h sid hcur)]
  simp only
  rw [if_pos hcur]

/-- C2: the registry invariant — a set current pointer always names a
key of the sessions map — is preserved by every operation; after
deleting the current session the pointer is absent, not dangling; and a
subsequent `get_current_session` creates a fresh session whose id is
new and in particular differs from the deleted id (given that the id
supply, standing in for `uuid4`, has not produced its next id before). -/
theorem c2_registry_invariant (m : Manager) (now maxAge : ℚ) (sid : String)
    (sid? : Option String) :
    Inv (createSession m now).2 ∧
    (Inv m → Inv (getOrCreateSession m sid? now).2) ∧
    (Inv m → Inv (getCurrentSession m now).2) ∧
    (Inv m → Inv (setCurrentSession m sid).1) ∧
    (Inv m → Inv (deleteSession m sid).1) ∧
    (Inv m → Inv (cleanupInactiveSessions m now maxAge).1) ∧
    (Inv m → m.current = some sid → (deleteSession m sid).1.current = none) ∧
    (Inv m → m.current = some sid →
      (∀ i < m.ctr, m.supply m.ctr ≠ m.supply i) →
      (∀ p ∈ m.sessions, ∃ i, i < m.ctr ∧ m.supply i = p.1) →
      (getCurrentSession (deleteSession m sid).1 now).1.session_id ≠ sid ∧
      dlookup ((getCurrentSession (deleteSession m sid).1 now).1.session_id)
        m.sessions = none) := by
  refine ⟨inv_create m now, inv_getOrCreate m sid? now, inv_getCurrent m now,
    inv_setCurrent m sid, inv_delete m sid, inv_cleanup m now maxAge,
    delete_current_clears m sid, ?_⟩
  intro h hcur hfresh hused
  have hclear : (deleteSession m sid).1.current = none :=
    delete_current_clears m sid h hcur
  have hfields : (deleteSession m sid).1.supply = m.supply ∧
      (deleteSession m sid).1.ctr = m.ctr := by
    unfold deleteSession
    split_ifs <;> exact ⟨rfl, rfl⟩
  have hid : (getCurrentSession (deleteSession m sid).1 now).1.session_id =
      m.supply m.ctr := by
    unfold getCurrentSession getOrCreateSession
    rw [hclear]
    simp only [createSession, mkSession, hfields.1, hfields.2]
  have hnew : ∀ k, dlookup k m.sessions ≠ none → m.supply m.ctr ≠ k := by
    intro k hk hke
    have hsome : (dlookup k m.sessions).isSome = true := by
      cases hdl : dlookup k m.sessions with
      | none => exact absurd hdl hk
      | some v => rfl
    obtain ⟨v, hv⟩ := dlookup_isSome_mem hsome
    obtain ⟨i, hi, hie⟩ := hused (k, v) hv
    exact hfresh i hi (hke.trans hie.symm)
  have hsidne : dlookup sid m.sessions ≠ none := by
    have hsome := h sid hcur
    intro he
    rw [he] at hsome
    simp at hsome
  constructor
  · rw [hid]
    exact hnew sid hsidne
  · rw [hid]
    cases hdl : dlookup (m.supply m.ctr) m.sessions with
    | none => rfl
    | some v =>
      exact absurd rfl
        (hnew _ (by rw [hdl]; exact fun hx => Option.noConfusion hx))

/-- C2, witness: in a concrete one-session registry, deleting the
current session leaves the pointer absent, and the next
`get_current_session` creates a session with a different id. -/
theorem c2_witness :
    (deleteSession witnessManager "a").1.current = none ∧
    (getCurrentSession (deleteSession witnessManager "a").1 5).1.session_id ≠
      "a" := by
  have h := c2_registry_invariant witnessManager 5 24 "a" none
  have hInv : Inv witnessManager := by
    intro id hid
    injection hid with hid
    subst hid
    decide
  refine ⟨h.2.2.2.2.2.2.1 hInv rfl, (h.2.2.2.2.2.2.2 hInv rfl ?_ ?_).1⟩
  · decide
  · intro p hp
    have hp' : p = ("a", mkSession "a" [] 0) := by
      simpa [witnessManager] using hp
    subst hp'
    exact ⟨0, by decide, by decide⟩

/-- The deletion loop removes exactly the listed keys and clears the
pointer exactly when it named a listed key. -/
theorem deleteAll_spec :
    ∀ (ids : List String) (m : Manager), ids.Nodup →
      (∀ id ∈ ids, (dlookup id m.sessions).isSome = true) →
      (deleteAll m ids).sessions =
        m.sessions.filter (fun p => p.1 ∉ ids) ∧
      (deleteAll m ids).current = (match m.current with
        | none => none
        | some c => if c ∈ ids then none else some c) := by
  intro ids
  induction ids with
  | nil =>
    intro m _ _
    constructor
    · show m.sessions = m.sessions.filter fun p => p.1 ∉ ([] : List String)
      simp
    · show m.current = _
      cases hc : m.current <;> simp
  | cons id0 t ih =>
    intro m hnd hlk
    have h0 : (dlookup id0 m.sessions).isSome = true :=
      hlk id0 (List.mem_cons_self _ _)
    have hstep : deleteAll m (id0 :: t) = deleteAll (deleteSession m id0).1 t :=
      rfl
    have hm1s : (deleteSession m id0).1.sessions =
        m.sessions.filter fun p => p.1 ≠ id0 := by
      unfold deleteSession
      rw [if_pos h0]
    have hm1c : (deleteSession m id0).1.current =
        (if m.current = some id0 then none else m.current) := by
      unfold deleteSession
      rw [if_pos h0]
    have hid0t : id0 ∉ t := (List.nodup_cons.mp hnd).1
    have hih := ih (deleteSession m id0).1 (List.nodup_cons.mp hnd).2
      (by
        intro id hid
        have hne : id ≠ id0 := fun he => hid0t (he ▸ hid)
        rw [hm1s, dlookup_filter_ne hne]
        exact hlk id (List.mem_cons_of_mem _ hid))
    constructor
    · rw [hstep, hih.1, hm1s, List.filter_filter]
      refine List.filter_congr fun p hp => ?_
      by_cases h1 : p.1 = id0 <;> by_cases h2 : p.1 ∈ t <;>
        simp [h1, h2, List.mem_cons]
    · rw [hstep, hih.2, hm1c]
      cases hc : m.current with
      | none => simp
      | some c =>
        by_cases h1 : c = id0
        · subst h1
          simp
        · rw [if_neg (by simpa using h1)]
          simp only [List.mem_cons]
          by_cases h2 : c ∈ t
          · simp [h1, h2]
          · simp [h1, h2]

/-- C7: for every registry state with unique keys (as in a Python
dict) and every threshold, cleanup retains exactly the sessions whose
age is at most the threshold (strictly older ones are deleted, an age
equal to the threshold is kept), returns the number of sessions
deleted, and preserves the no-dangling-pointer invariant. -/
theorem c7_cleanup (m : Manager) (now maxAge : ℚ)
    (hkeys : (m.sessions.map Prod.fst).Nodup) :
    (cleanupInactiveSessions m now maxAge).1.sessions =
      m.sessions.filter
        (fun p => ¬((now - p.2.last_activity) / 3600 > maxAge)) ∧
    (cleanupInactiveSessions m now maxAge).2 =
      (m.sessions.filter
        (fun p => (now - p.2.last_activity) / 3600 > maxAge)).length ∧
    (Inv m → Inv (cleanupInactiveSessions m now maxAge).1) := by
  have hsub : ((m.sessions.filter
      fun p => (now - p.2.last_activity) / 3600 > maxAge).map Prod.fst).Sublist
      (m.sessions.map Prod.fst) :=
    (List.filter_sublist m.sessions).map Prod.fst
  have hnd : ((m.sessions.filter
      fun p => (now - p.2.last_activity) / 3600 > maxAge).map
        Prod.fst).Nodup := hsub.nodup hkeys
  have hlk : ∀ id ∈ (m.sessions.filter
      fun p => (now - p.2.last_activity) / 3600 > maxAge).map Prod.fst,
      (dlookup id m.sessions).isSome = true :=
    fun id hid => dlookup_isSome_of_mem_keys (hsub.subset hid)
  have hspec := deleteAll_spec _ m hnd hlk
  refine ⟨?_, ?_, inv_cleanup m now maxAge⟩
  · show (deleteAll m _).sessions = _
    rw [hspec.1]
    refine List.filter_congr fun p hp => ?_
    refine decide_eq_decide.mpr (not_congr ?_)
    constructor
    · intro hmem
      obtain ⟨q, hq, hqe⟩ := List.mem_map.mp hmem
      have hql := List.mem_of_mem_filter hq
      have hqs := List.of_mem_filter hq
      have : q = p := List.inj_on_of_nodup_map hkeys hql hp hqe
      subst this
      exact of_decide_eq_true hqs
    · intro hst
      exact List.mem_map_of_mem Prod.fst
        (List.mem_filter.mpr ⟨hp, decide_eq_true hst⟩)
  · show List.length _ = _
    exact List.length_map _ _

/-- C7, witness: in the concrete three-session registry at
`now = 90000`, exactly the session aged 25 hours is deleted (ages 24
and 1 hour survive, the 24-hour age sitting exactly on the threshold),
and the count is 1. -/
theorem c7_witness :
    (cleanupInactiveSessions cleanupManager 90000 24).2 = 1 ∧
    (cleanupInactiveSessions cleanupManager 90000 24).1.sessions =
      [("aa", mkSession "aa" [] 3600), ("aaa", mkSession "aaa" [] 86400)] := by
  have h := c7_cleanup cleanupManager 90000 24 (by decide)
  have e1 : ((90000 : ℚ) - 0) / 3600 > 24 := by norm_num
  have e2 : ¬(((90000 : ℚ) - 3600) / 3600 > 24) := by norm_num
  have e3 : ¬(((90000 : ℚ) - 86400) / 3600 > 24) := by norm_num
  constructor
  · rw [h.2.1]
    show (List.filter _ [("a", mkSession "a" [] 0), ("aa", mkSession "aa" [] 3600),
      ("aaa", mkSession "aaa" [] 86400)]).length = 1
    rw [List.filter_cons, List.filter_cons, List.filter_cons]
    simp only [mkSession]
    simp [e1, e2, e3]
    norm_num
  · rw [h.1]
    show List.filter _ [("a", mkSession "a" [] 0), ("aa", mkSession "aa" [] 3600),
      ("aaa", mkSession "aaa" [] 86400)] = _
    rw [List.filter_cons, List.filter_cons, List.filter_cons]
    simp only [mkSession]
    simp [e1, e2, e3]
    norm_num [mkSession]

/-- C10: a lookup through `get_or_create_session` with an explicit id
that is not in the sessions map creates a new session — whose id is the
next supply id and which becomes current — and so does a call without
an id when no current session exists; a lookup with a known (nonempty)
id returns the session and leaves the whole registry, pointer included,
unchanged. -/
theorem c10_get_or_create (m : Manager) (sid : String) (sess : Session)
    (now : ℚ) :
    (dlookup sid m.sessions = none →
      getOrCreateSession m (some sid) now = createSession m now) ∧
    (m.current = none →
      getOrCreateSession m none now = createSession m now) ∧
    ((createSession m now).1.session_id = m.supply m.ctr ∧
     (createSession m now).2.current = some (m.supply m.ctr)) ∧
    (sid ≠ "" → dlookup sid m.sessions = some sess →
      getOrCreateSession m (some sid) now = (sess, m)) := by
  refine ⟨?_, ?_, ⟨rfl, rfl⟩, ?_⟩
  · intro hdl
    by_cases hs : sid ≠ "" <;> simp [getOrCreateSession, hs, hdl]
  · intro hc
    simp [getOrCreateSession, hc]
  · intro hs hdl
    simp [getOrCreateSession, hs, hdl]

/-- C10, witness: in the concrete registry, looking up the unknown id
`"zz"` creates a session, while looking up the known id `"a"` returns
it and leaves the registry untouched. -/
theorem c10_witness :
    getOrCreateSession witnessManager (some "zz") 5 =
      createSession witnessManager 5 ∧
    getOrCreateSession witnessManager (some "a") 5 =
      (mkSession "a" [] 0, witnessManager) :=
  ⟨(c10_get_or_create witnessManager "zz" (mkSession "a" [] 0) 5).1
     (by decide),
   (c10_get_or_create witnessManager "a" (mkSession "a" [] 0) 5).2.2.2
     (by decide) (by decide)⟩

end TalkToMe
